import Mathlib

/-!
# Earthquake-Simulator: mesh generation, playback clock and magnitude classifier

A shallow embedding of `src/earth.cc` (`Earth::Init`, `Earth::LatLongToSphere`,
`Earth::LatLongToPlane`) and of `src/quake_app.cc` (`QuakeApp::UpdateSimulation`,
`QuakeApp::VisualizeEarthQuake`), followed by theorems about them.

Conventions of the embedding.

* Scalars (`float`, `double`) are elements of a field `R`; finite arithmetic is exact.
  The only non-finite values the code can produce from finite inputs come from the
  division in `VisualizeEarthQuake`; they are modelled by `FloatVal`.
* The loop counters `x`, `y` of `Earth::Init` are `float`s that only ever hold
  integers of magnitude below `2^24`, which `float` represents exactly; they are `Int`s.
* `std::vector` is `List`, `push_back` appends at the end.
* `size_t` is 64 bits wide, `unsigned int` 32 bits wide.
* A loop is a recursive function with a fuel argument; `none` means the fuel ran out.
-/

namespace Earthquake

/-! ## Geometry types (MinGfx `Point2`, `Point3`, `Vector3`) -/

structure Point2 (R : Type) where
  x : R
  y : R
deriving DecidableEq

structure Point3 (R : Type) where
  x : R
  y : R
  z : R
deriving DecidableEq

structure Vector3 (R : Type) where
  x : R
  y : R
  z : R
deriving DecidableEq

/-- MinGfx `Point3 - Point3`, the vector between two points. -/
def Point3.sub {R : Type} [Sub R] (a b : Point3 R) : Vector3 R :=
  ⟨a.x - b.x, a.y - b.y, a.z - b.z⟩

/-- The C math library as used by `earth.cc`: `M_PI`, `cos`, `sin`, and
`GfxMath::ToRadians` of the graphics toolkit. -/
structure MathEnv (R : Type) where
  M_PI : R
  cos : R → R
  sin : R → R
  ToRadians : R → R

/-! ## `src/earth.cc` -/

section Earth

variable {R : Type}

/-- The function `Earth::LatLongToSphere` (earth.cc:116-124). -/
def LatLongToSphere [Mul R] (env : MathEnv R) (latitude longitude : R) : Point3 R :=
  let latitude := env.ToRadians latitude
  let longitude := env.ToRadians longitude
  let x := env.cos latitude * env.sin longitude
  let y := env.sin latitude
  let z := env.cos latitude * env.cos longitude
  ⟨x, y, z⟩

/-- The function `Earth::LatLongToPlane` (earth.cc:127-132). -/
def LatLongToPlane [Field R] (env : MathEnv R) (latitude longitude : R) : Point3 R :=
  let y := latitude * env.M_PI / 2 / 90
  let x := longitude * env.M_PI / 180
  ⟨x, y, 0⟩

/-- Subtraction of two `size_t`: wraps modulo `2^64`. -/
def usub64 (a b : Nat) : Nat := (a + 2 ^ 64 - b % 2 ^ 64) % 2 ^ 64

/-- Conversion of a `size_t` to `unsigned int`. -/
def toU32 (a : Nat) : Nat := a % 2 ^ 32

/-- The six arrays filled by the grid loop of `Earth::Init`: the locals `indices` and
`tex_coords` and the members `plane_vertices`, `sphere_vertices`, `plane_normals`,
`sphere_normals`. -/
structure Mesh (R : Type) where
  indices : List Nat
  tex_coords : List (Point2 R)
  plane_vertices : List (Point3 R)
  sphere_vertices : List (Point3 R)
  plane_normals : List (Vector3 R)
  sphere_normals : List (Vector3 R)

/-- Ghost record of one iteration of the inner loop: the loop variables `y`, `x` of the
iteration and the arrays as they are at its end. -/
structure Snapshot (R : Type) where
  y : Int
  x : Int
  mesh : Mesh R

/-- State of the grid loop: the arrays, the texture cursor, and a ghost `history` that
gets one `Snapshot` at the end of every iteration of the inner loop. -/
structure InitState (R : Type) where
  mesh : Mesh R
  x_tex : R
  y_tex : R
  history : List (Snapshot R)

/-- The local `y_bound` (earth.cc:35). -/
def y_bound : Int := 90

/-- The local `x_bound` (earth.cc:36). -/
def x_bound : Int := 180

/-- The local `y_interval = 180 / nstacks`, an `int` division (earth.cc:37). -/
def y_interval (nstacks : Nat) : Int := 180 / (nstacks : Int)

/-- The local `x_interval = 360 / nslices`, an `int` division (earth.cc:38). -/
def x_interval (nslices : Nat) : Int := 360 / (nslices : Int)

/-- Body of the inner loop (earth.cc:43-76) at latitude `y` and longitude `x`. -/
def gridBody [Field R] (env : MathEnv R) (yi : Int) (y x : Int) (s : InitState R) :
    InitState R :=
  let tex_coords := s.mesh.tex_coords ++ [⟨s.x_tex, s.y_tex⟩, ⟨s.x_tex, s.y_tex - 1 / 10⟩]
  let p1 := LatLongToPlane env (y : R) (x : R)
  let p2 := LatLongToPlane env ((y + yi : Int) : R) (x : R)
  let plane_vertices := s.mesh.plane_vertices ++ [p1, p2]
  let s1 := LatLongToSphere env (y : R) (x : R)
  let s2 := LatLongToSphere env ((y + yi : Int) : R) (x : R)
  let sphere_vertices := s.mesh.sphere_vertices ++ [s1, s2]
  let v1 : Vector3 R := ⟨0, 0, 1⟩
  let plane_normals := s.mesh.plane_normals ++ [v1, v1]
  let v2 := s1.sub ⟨0, 0, 0⟩
  let v3 := s2.sub ⟨0, 0, 0⟩
  let sphere_normals := s.mesh.sphere_normals ++ [v2, v3]
  let x_tex := s.x_tex + 1 / 10
  let size := plane_vertices.length
  let indices :=
    if x > -x_bound then
      s.mesh.indices ++
        [toU32 (usub64 size 4), toU32 (usub64 size 2), toU32 (usub64 size 3),
         toU32 (usub64 size 2), toU32 (usub64 size 1), toU32 (usub64 size 3)]
    else s.mesh.indices
  let mesh : Mesh R :=
    ⟨indices, tex_coords, plane_vertices, sphere_vertices, plane_normals, sphere_normals⟩
  ⟨mesh, x_tex, s.y_tex, s.history ++ [⟨y, x, mesh⟩]⟩

/-- Inner loop `for (float x = ...; x <= x_bound; x += x_interval)` (earth.cc:42-77),
entered with loop variable `x`. -/
def innerLoop [Field R] (env : MathEnv R) (yi xi : Int) (y : Int) :
    Nat → Int → InitState R → Option (InitState R)
  | 0, x, s => if x ≤ x_bound then none else some s
  | fuel + 1, x, s =>
    if x ≤ x_bound then innerLoop env yi xi y fuel (x + xi) (gridBody env yi y x s)
    else some s

/-- Outer loop `for (float y = ...; y < y_bound; y += y_interval)` (earth.cc:40-79),
entered with loop variable `y`.  The inner loop gets `ifuel`. -/
def outerLoop [Field R] (env : MathEnv R) (yi xi : Int) (ifuel : Nat) :
    Nat → Int → InitState R → Option (InitState R)
  | 0, y, s => if y < y_bound then none else some s
  | fuel + 1, y, s =>
    if y < y_bound then
      match innerLoop env yi xi y ifuel (-x_bound) { s with x_tex := 9 } with
      | none => none
      | some s1 => outerLoop env yi xi ifuel fuel (y + yi) { s1 with y_tex := s1.y_tex - 1 / 10 }
    else some s

/-- State before the grid loop (earth.cc:30-38): every array empty, `x_tex = 0.0`,
`y_tex = 9.0`. -/
def initState [Field R] : InitState R :=
  ⟨⟨[], [], [], [], [], []⟩, 0, 9, []⟩

/-- Geometry part of `Earth::Init` (earth.cc:27-79) for `nstacks` stacks and `nslices`
slices (both are the constant `10` in the source). -/
def Init [Field R] (env : MathEnv R) (nstacks nslices : Nat) (fuel : Nat) :
    Option (InitState R) :=
  outerLoop env (y_interval nstacks) (x_interval nslices) fuel fuel (-y_bound) initState

end Earth

/-! ### Closed form of the grid loop's output (used by the proofs) -/

section GridSpec

variable {R : Type}

/-- Latitude of the grid sample stored at vertex index `i`, for rows of `w` columns. -/
def gridLat (yi : Int) (w : Nat) (i : Nat) : Int :=
  -y_bound + ((i / 2 / w + i % 2 : Nat) : Int) * yi

/-- Longitude of the grid sample stored at vertex index `i`, for rows of `w` columns. -/
def gridLon (xi : Int) (w : Nat) (i : Nat) : Int :=
  -x_bound + ((i / 2 % w : Nat) : Int) * xi

/-- Expected entry `i` of `plane_vertices`. -/
def planeAt [Field R] (env : MathEnv R) (yi xi : Int) (w : Nat) (i : Nat) : Point3 R :=
  LatLongToPlane env (gridLat yi w i : R) (gridLon xi w i : R)

/-- Expected entry `i` of `sphere_vertices`. -/
def sphereAt [Field R] (env : MathEnv R) (yi xi : Int) (w : Nat) (i : Nat) : Point3 R :=
  LatLongToSphere env (gridLat yi w i : R) (gridLon xi w i : R)

/-- Expected entry `i` of the index buffer for `S` slices: quad `i / 6` joins the
vertex pair `k - 2, k - 1` to the pair `k, k + 1`. -/
def quadIndex (S : Nat) (i : Nat) : Nat :=
  let q := i / 6
  let k := 2 * (q / S * (S + 1) + (q % S + 1))
  match i % 6 with
  | 0 => k - 2
  | 1 => k
  | 2 => k - 1
  | 3 => k
  | 4 => k + 1
  | _ => k - 1

/-- The DualMesh invariant of the spec: the five per-vertex arrays have one length and
every index is below it. -/
def Mesh.Good (m : Mesh R) : Prop :=
  m.sphere_vertices.length = m.plane_vertices.length ∧
  m.plane_normals.length = m.plane_vertices.length ∧
  m.sphere_normals.length = m.plane_vertices.length ∧
  m.tex_coords.length = m.plane_vertices.length ∧
  ∀ i ∈ m.indices, i < m.plane_vertices.length

/-- Loop invariant: after `N` samples and `Q` quads the arrays are the closed forms. -/
structure GridInv [Field R] (env : MathEnv R) (yi xi : Int) (S N Q : Nat)
    (m : Mesh R) (h : List (Snapshot R)) : Prop where
  pv : m.plane_vertices = (List.range (2 * N)).map (planeAt env yi xi (S + 1))
  sv : m.sphere_vertices = (List.range (2 * N)).map (sphereAt env yi xi (S + 1))
  sn : m.sphere_normals =
    (List.range (2 * N)).map (fun i => (sphereAt env yi xi (S + 1) i).sub ⟨0, 0, 0⟩)
  pn : m.plane_normals.length = 2 * N
  tc : m.tex_coords.length = 2 * N
  idx : m.indices = (List.range (6 * Q)).map (quadIndex S)
  hlen : h.length = N
  hlast : 0 < N → h.getLast?.map Snapshot.mesh = some m
  hist : ∀ (j : Nat) (e : Snapshot R), h[j]? = some e →
    e.y = -y_bound + ((j / (S + 1) : Nat) : Int) * yi ∧
    e.x = -x_bound + ((j % (S + 1) : Nat) : Int) * xi ∧
    e.mesh.indices = (List.range (6 * (j / (S + 1) * S + j % (S + 1)))).map (quadIndex S) ∧
    e.mesh.plane_vertices.length = 2 * (j + 1) ∧
    e.mesh.Good

/-- The index buffer on entry to iteration `j` of the inner loop (counted from 0 over
the whole run), read off the ghost history: empty before the first iteration, else the
buffer recorded at the end of iteration `j - 1`. -/
def indicesBefore (h : List (Snapshot R)) : Nat → List Nat
  | 0 => []
  | j + 1 => (h[j]?.map fun e => e.mesh.indices).getD []

end GridSpec

/-! ## `src/quake_app.cc` -/

section QuakeApp

variable {R : Type}

/-- The members of `QuakeApp` that `UpdateSimulation` reads and writes, and a ghost
counter `wraps` of how often the body of its first `if` (quake_app.cc:151) has run. -/
structure Clock (R : Type) where
  current_time_ : R
  playback_scale_ : R
  wraps : Nat

/-- The function `QuakeApp::UpdateSimulation` (quake_app.cc:147-155).  `first_event_time` stands for
`quake_db_.earthquake(quake_db_.min_index()).date().ToSeconds()` and `last_event_time`
for the same expression with `max_index()`. -/
def UpdateSimulation [LinearOrderedField R] (first_event_time last_event_time : R) (dt : R)
    (a : Clock R) : Clock R :=
  let a : Clock R := { a with current_time_ := a.current_time_ + a.playback_scale_ * dt }
  let a : Clock R :=
    if a.current_time_ > last_event_time then
      { a with current_time_ := first_event_time, wraps := a.wraps + 1 }
    else a
  let a : Clock R :=
    if a.current_time_ < first_event_time then { a with current_time_ := last_event_time }
    else a
  a

/-- A `float`: a finite value of `R`, an infinity or a NaN. -/
inductive FloatVal (R : Type) where
  | finite (v : R)
  | posInf
  | negInf
  | nan

/-- IEEE-754 division of two finite floats; the divisor `0` is `+0`, as a difference of
two equal finite floats is. -/
def fdiv [LinearOrderedField R] (a b : R) : FloatVal R :=
  if b = 0 then
    if 0 < a then FloatVal.posInf else if a < 0 then FloatVal.negInf else FloatVal.nan
  else FloatVal.finite (a / b)

/-- The comparison `v > c` of a float with a finite constant: false on a NaN. -/
def FloatVal.gt [LinearOrderedField R] (v : FloatVal R) (c : R) : Bool :=
  match v with
  | FloatVal.finite v => decide (c < v)
  | FloatVal.posInf => true
  | FloatVal.negInf => false
  | FloatVal.nan => false

/-- MinGfx `Color`, as built from three `int`s by `Color col(r,g,b)`. -/
structure Color where
  r : Int
  g : Int
  b : Int
deriving DecidableEq

/-- The locals `sphere_size`, `r`, `g`, `b` of `VisualizeEarthQuake`, declared without
an initialiser (quake_app.cc:103-104): on entry they hold indeterminate values. -/
structure Locals (R : Type) where
  sphere_size : R
  r : Int
  g : Int
  b : Int

/-- What `VisualizeEarthQuake` hands to `DrawSphere`: the colour and the two factors
`Translation(p - origin)` and `Scale(sphere_size, sphere_size, sphere_size)` of `Mball`. -/
structure Marker (R : Type) where
  col : Color
  translation : Vector3 R
  scale : Vector3 R

/-- The error of the spec's classifier. -/
inductive DataError where
  | degenerateMagnitudeRange
deriving DecidableEq

/-- The function `QuakeApp::VisualizeEarthQuake` (quake_app.cc:101-144), with `min_magnitude` and
`max_magnitude` for the two accessors of `quake_db_` and `l` for the values the
uninitialised locals hold on entry.  The function has no `throw` and a float division
does not trap, so every path returns. -/
def VisualizeEarthQuake [LinearOrderedField R] (min_magnitude max_magnitude : R)
    (magnitude : R) (p : Point3 R) (l : Locals R) : Except DataError (Marker R) :=
  let minVal := min_magnitude
  let maxVal := max_magnitude
  let normalizedMagnitude := fdiv (magnitude - minVal) (maxVal - minVal)
  let l : Locals R :=
    if normalizedMagnitude.gt (4 / 10) then
      { l with r := 255, g := 0, b := 0, sphere_size := l.sphere_size + 9 / 100 }
    else if normalizedMagnitude.gt (3 / 10) then
      { l with r := 255, g := 128, b := 0, sphere_size := l.sphere_size + 8 / 100 }
    else if normalizedMagnitude.gt (2 / 10) then
      { l with r := 255, g := 255, b := 0, sphere_size := l.sphere_size + 7 / 100 }
    else if normalizedMagnitude.gt (1 / 10) then
      { l with r := 128, g := 255, b := 0, sphere_size := 6 / 100 }
    else if normalizedMagnitude.gt 0 then
      { l with r := 0, g := 255, b := 0, sphere_size := 5 / 100 }
    else l
  let col : Color := ⟨l.r, l.g, l.b⟩
  Except.ok ⟨col, p.sub ⟨0, 0, 0⟩, ⟨l.sphere_size, l.sphere_size, l.sphere_size⟩⟩

end QuakeApp

/-- A math environment over `ℚ` for evaluating the definitions on concrete inputs. -/
def sampleEnv : MathEnv ℚ := ⟨3, fun x => x, fun x => x, fun x => x / 60⟩

/-! ## Lemmas on the grid loop -/

theorem Mesh.Good.of_lengths {R : Type} {m : Mesh R} {n : Nat}
    (h1 : m.plane_vertices.length = n) (h2 : m.sphere_vertices.length = n)
    (h3 : m.plane_normals.length = n) (h4 : m.sphere_normals.length = n)
    (h5 : m.tex_coords.length = n) (h6 : ∀ i ∈ m.indices, i < n) : m.Good := by
  refine ⟨?_, ?_, ?_, ?_, ?_⟩
  · rw [h1, h2]
  · rw [h1, h3]
  · rw [h1, h4]
  · rw [h1, h5]
  · rw [h1]; exact h6

theorem map_range_take (f : Nat → α) (n m : Nat) (h : m ≤ n) :
    ((List.range n).map f).take m = (List.range m).map f := by
  rw [← List.map_take, List.take_range, Nat.min_eq_left h]

section GridLemmas

variable {R : Type} [Field R]

theorem div_mod_row (w r c : Nat) (hc : c < w) :
    (r * w + c) / w = r ∧ (r * w + c) % w = c := by
  have hw : 0 < w := by omega
  constructor
  · rw [Nat.add_comm, Nat.add_mul_div_right _ _ hw, Nat.div_eq_of_lt hc, Nat.zero_add]
  · rw [Nat.add_comm, Nat.add_mul_mod_self_right, Nat.mod_eq_of_lt hc]

theorem gridLat_even (yi : Int) (w r c : Nat) (hc : c < w) :
    gridLat yi w (2 * (r * w + c)) = -y_bound + r * yi := by
  have h1 : 2 * (r * w + c) / 2 = r * w + c := by omega
  have h2 : 2 * (r * w + c) % 2 = 0 := by omega
  simp only [gridLat, h1, h2, (div_mod_row w r c hc).1, Nat.add_zero]

theorem gridLat_odd (yi : Int) (w r c : Nat) (hc : c < w) :
    gridLat yi w (2 * (r * w + c) + 1) = -y_bound + r * yi + yi := by
  have h1 : (2 * (r * w + c) + 1) / 2 = r * w + c := by omega
  have h2 : (2 * (r * w + c) + 1) % 2 = 1 := by omega
  simp only [gridLat, h1, h2, (div_mod_row w r c hc).1]
  push_cast
  ring

theorem gridLon_even (xi : Int) (w r c : Nat) (hc : c < w) :
    gridLon xi w (2 * (r * w + c)) = -x_bound + c * xi := by
  have h1 : 2 * (r * w + c) / 2 = r * w + c := by omega
  simp only [gridLon, h1, (div_mod_row w r c hc).2]

theorem gridLon_odd (xi : Int) (w r c : Nat) (hc : c < w) :
    gridLon xi w (2 * (r * w + c) + 1) = -x_bound + c * xi := by
  have h1 : (2 * (r * w + c) + 1) / 2 = r * w + c := by omega
  simp only [gridLon, h1, (div_mod_row w r c hc).2]

theorem usub64_small (a b : Nat) (hb : b ≤ a) (ha : a < 2 ^ 32) :
    toU32 (usub64 a b) = a - b := by
  unfold toU32 usub64
  norm_num at ha ⊢
  omega

theorem quadIndex_block (S r c : Nat) (hc1 : 1 ≤ c) (hc : c ≤ S) :
    (List.range (6 * (r * S + c))).map (quadIndex S) =
      (List.range (6 * (r * S + (c - 1)))).map (quadIndex S) ++
        [2 * (r * (S + 1) + c) - 2, 2 * (r * (S + 1) + c), 2 * (r * (S + 1) + c) - 1,
         2 * (r * (S + 1) + c), 2 * (r * (S + 1) + c) + 1, 2 * (r * (S + 1) + c) - 1] := by
  obtain ⟨d, rfl⟩ : ∃ d, c = d + 1 := ⟨c - 1, by omega⟩
  have hd : d < S := by omega
  have hq := div_mod_row S r d hd
  have e : 6 * (r * S + (d + 1)) = 6 * (r * S + d) + 1 + 1 + 1 + 1 + 1 + 1 := by ring
  have hk : 2 * ((r * S + d) / S * (S + 1) + ((r * S + d) % S + 1)) =
      2 * (r * (S + 1) + (d + 1)) := by rw [hq.1, hq.2]
  have q0 : ∀ j, j < 6 → (6 * (r * S + d) + j) / 6 = r * S + d := by intro j hj; omega
  have m0 : ∀ j, j < 6 → (6 * (r * S + d) + j) % 6 = j := by intro j hj; omega
  have v : ∀ j, j < 6 → quadIndex S (6 * (r * S + d) + j) =
      (match j with
        | 0 => 2 * (r * (S + 1) + (d + 1)) - 2
        | 1 => 2 * (r * (S + 1) + (d + 1))
        | 2 => 2 * (r * (S + 1) + (d + 1)) - 1
        | 3 => 2 * (r * (S + 1) + (d + 1))
        | 4 => 2 * (r * (S + 1) + (d + 1)) + 1
        | _ => 2 * (r * (S + 1) + (d + 1)) - 1) := by
    intro j hj
    unfold quadIndex
    simp only [q0 j hj, m0 j hj, hk]
  have v0 := v 0 (by omega)
  have v1 := v 1 (by omega)
  have v2 := v 2 (by omega)
  have v3 := v 3 (by omega)
  have v4 := v 4 (by omega)
  have v5 := v 5 (by omega)
  simp only [Nat.add_zero] at v0
  simp only [Nat.add_sub_cancel]
  rw [e]
  simp only [List.range_succ, List.map_append, List.map_cons, List.map_nil,
    List.append_assoc, List.cons_append, List.nil_append]
  have a1 : 6 * (r * S + d) + 1 + 1 = 6 * (r * S + d) + 2 := rfl
  have a2 : 6 * (r * S + d) + 2 + 1 = 6 * (r * S + d) + 3 := rfl
  have a3 : 6 * (r * S + d) + 3 + 1 = 6 * (r * S + d) + 4 := rfl
  have a4 : 6 * (r * S + d) + 4 + 1 = 6 * (r * S + d) + 5 := rfl
  simp only [a1, a2, a3, a4, v0, v1, v2, v3, v4, v5]

theorem range_two (f : Nat → α) (n : Nat) :
    (List.range (2 * (n + 1))).map f = (List.range (2 * n)).map f ++ [f (2 * n), f (2 * n + 1)] := by
  have e : 2 * (n + 1) = 2 * n + 1 + 1 := by ring
  rw [e]
  simp only [List.range_succ, List.map_append, List.map_cons, List.map_nil,
    List.append_assoc, List.cons_append, List.nil_append]

theorem GridInv.lengths {env : MathEnv R} {yi xi : Int} {S N Q : Nat} {m : Mesh R}
    {h : List (Snapshot R)} (inv : GridInv env yi xi S N Q m h) :
    m.plane_vertices.length = 2 * N ∧ m.sphere_vertices.length = 2 * N ∧
    m.plane_normals.length = 2 * N ∧ m.sphere_normals.length = 2 * N ∧
    m.tex_coords.length = 2 * N ∧ m.indices.length = 6 * Q := by
  refine ⟨?_, ?_, inv.pn, ?_, inv.tc, ?_⟩
  · rw [inv.pv]; simp
  · rw [inv.sv]; simp
  · rw [inv.sn]; simp
  · rw [inv.idx]; simp

/-- One iteration of the inner loop, at row `r` and column `c`, keeps the invariant. -/
theorem gridBody_inv (env : MathEnv R) (yi xi : Int) (S r c : Nat) (s : InitState R)
    (hxi : 0 < xi) (hc : c ≤ S) (hbig : 2 * (r * (S + 1) + c + 1) < 2 ^ 32)
    (hgood : 0 < r * (S + 1) + c → s.mesh.Good)
    (inv : GridInv env yi xi S (r * (S + 1) + c) (r * S + (c - 1)) s.mesh s.history) :
    GridInv env yi xi S (r * (S + 1) + c + 1) (r * S + c)
        (gridBody env yi (-y_bound + r * yi) (-x_bound + c * xi) s).mesh
        (gridBody env yi (-y_bound + r * yi) (-x_bound + c * xi) s).history ∧
      (gridBody env yi (-y_bound + r * yi) (-x_bound + c * xi) s).mesh.Good := by
  have hcw : c < S + 1 := by omega
  obtain ⟨l1, l2, l3, l4, l5, -⟩ := inv.lengths
  have hidx : (gridBody env yi (-y_bound + r * yi) (-x_bound + c * xi) s).mesh.indices =
      (List.range (6 * (r * S + c))).map (quadIndex S) := by
    by_cases hc0 : c = 0
    · subst hc0
      have : ¬ (-x_bound + ((0 : Nat) : Int) * xi > -x_bound) := by simp
      simp only [gridBody, this, if_false]
      simpa using inv.idx
    · have hpos : -x_bound + (c : Int) * xi > -x_bound := by
        have : (0 : Int) < c := by exact_mod_cast Nat.pos_of_ne_zero hc0
        have := Int.mul_pos this hxi
        omega
      have hsz : (s.mesh.plane_vertices ++
          [LatLongToPlane env ((-y_bound + r * yi : Int) : R) ((-x_bound + c * xi : Int) : R),
           LatLongToPlane env ((-y_bound + r * yi + yi : Int) : R)
             ((-x_bound + c * xi : Int) : R)]).length = 2 * (r * (S + 1) + c) + 2 := by
        simp [l1]
      simp only [gridBody, hpos, if_true, hsz]
      rw [quadIndex_block S r c (by omega) hc, ← inv.idx]
      have hN : 1 ≤ r * (S + 1) + c := by omega
      rw [usub64_small _ 4 (by omega) (by omega), usub64_small _ 2 (by omega) (by omega),
        usub64_small _ 3 (by omega) (by omega), usub64_small _ 1 (by omega) (by omega)]
      congr 2
  have elat0 := gridLat_even yi (S + 1) r c hcw
  have elat1 := gridLat_odd yi (S + 1) r c hcw
  have elon0 := gridLon_even xi (S + 1) r c hcw
  have elon1 := gridLon_odd xi (S + 1) r c hcw
  have hmesh : (gridBody env yi (-y_bound + r * yi) (-x_bound + c * xi) s).mesh.Good := by
    apply Mesh.Good.of_lengths (n := 2 * (r * (S + 1) + c) + 2)
    · simp [gridBody, l1]
    · simp [gridBody, l2]
    · simp [gridBody, l3]
    · simp [gridBody, l4]
    · simp [gridBody, l5]
    · intro i hi
      rw [hidx] at hi
      by_cases hc0 : c = 0
      · subst hc0
        have h0 : r * S + 0 = r * S + (0 - 1) := rfl
        rw [h0, ← inv.idx] at hi
        by_cases hr : 0 < r * (S + 1) + 0
        · have := (hgood hr).2.2.2.2 i hi
          rw [l1] at this
          omega
        · have hq : r * S + (0 - 1) = 0 := by
            have : r = 0 := by
              rcases Nat.eq_zero_or_pos r with h | h
              · exact h
              · exact absurd (by positivity) hr
            subst this
            simp
          rw [inv.idx, hq] at hi
          simp at hi
      · rw [quadIndex_block S r c (by omega) hc, ← inv.idx] at hi
        rcases List.mem_append.1 hi with h | h
        · have := (hgood (by omega)).2.2.2.2 i h
          rw [l1] at this
          omega
        · simp only [List.mem_cons, List.mem_singleton, List.mem_nil_iff, or_false] at h
          omega
  refine ⟨⟨?_, ?_, ?_, ?_, ?_, hidx, ?_, ?_, ?_⟩, hmesh⟩
  · rw [range_two, ← inv.pv]
    simp only [planeAt, elat0, elat1, elon0, elon1]
    rfl
  · rw [range_two, ← inv.sv]
    simp only [sphereAt, elat0, elat1, elon0, elon1]
    rfl
  · rw [range_two, ← inv.sn]
    simp only [sphereAt, elat0, elat1, elon0, elon1]
    rfl
  · simp [gridBody, l3]; ring
  · simp [gridBody, l5]; ring
  · simp [gridBody, inv.hlen]
  · intro _
    simp [gridBody]
  · intro j e hj
    have hh : (gridBody env yi (-y_bound + r * yi) (-x_bound + c * xi) s).history =
        s.history ++ [⟨-y_bound + r * yi, -x_bound + c * xi,
          (gridBody env yi (-y_bound + r * yi) (-x_bound + c * xi) s).mesh⟩] := rfl
    rw [hh] at hj
    rcases Nat.lt_or_ge j s.history.length with hlt | hge
    · rw [List.getElem?_append_left hlt] at hj
      exact inv.hist j e hj
    · rw [List.getElem?_append_right hge, inv.hlen] at hj
      rw [inv.hlen] at hge
      have hj0 : j = r * (S + 1) + c := by
        by_contra hne
        have : j - (r * (S + 1) + c) = (j - (r * (S + 1) + c) - 1) + 1 := by omega
        rw [this] at hj
        simp at hj
      subst hj0
      simp only [Nat.sub_self, List.getElem?_cons_zero, Option.some.injEq] at hj
      subst hj
      obtain ⟨d1, d2⟩ := div_mod_row (S + 1) r c hcw
      refine ⟨by rw [d1], by rw [d2], ?_, ?_, hmesh⟩
      · rw [d1, d2]; exact hidx
      · simp [gridBody, l1]; ring

theorem GridInv.good {env : MathEnv R} {yi xi : Int} {S N Q : Nat} {m : Mesh R}
    {h : List (Snapshot R)} (inv : GridInv env yi xi S N Q m h) (hN : 0 < N) : m.Good := by
  have hl := inv.hlast hN
  rw [List.getLast?_eq_getElem?] at hl
  cases he : h[h.length - 1]? with
  | none => rw [he] at hl; simp at hl
  | some e =>
    rw [he] at hl
    simp only [Option.map_some', Option.some.injEq] at hl
    rw [← hl]
    exact (inv.hist _ e he).2.2.2.2

/-- The inner loop, entered at column `c` of row `r` with enough fuel for the `n`
columns left, terminates with the invariant of the finished row. -/
theorem innerLoop_inv (env : MathEnv R) (yi xi : Int) (S r : Nat)
    (hxi : 0 < xi) (hS : xi * S = 360) (hbig : 2 * ((r + 1) * (S + 1)) < 2 ^ 32) :
    ∀ (n c fuel : Nat) (s : InitState R), c + n = S + 1 → n ≤ fuel →
      GridInv env yi xi S (r * (S + 1) + c) (r * S + (c - 1)) s.mesh s.history →
      ∃ s1, innerLoop env yi xi (-y_bound + r * yi) fuel (-x_bound + c * xi) s = some s1 ∧
        GridInv env yi xi S ((r + 1) * (S + 1)) ((r + 1) * S) s1.mesh s1.history := by
  intro n
  induction n with
  | zero =>
    intro c fuel s hc _ inv
    have hcS : c = S + 1 := by omega
    subst hcS
    have hx : ¬ (-x_bound + ((S + 1 : Nat) : Int) * xi ≤ x_bound) := by
      have : ((S + 1 : Nat) : Int) * xi = 360 + xi := by push_cast; linarith
      rw [this]; unfold x_bound; omega
    refine ⟨s, ?_, ?_⟩
    · cases fuel <;> simp only [innerLoop, hx, if_false]
    · have e1 : (r + 1) * (S + 1) = r * (S + 1) + (S + 1) := by ring
      have e2 : (r + 1) * S = r * S + (S + 1 - 1) := by simp; ring
      rw [e1, e2]; exact inv
  | succ n ih =>
    intro c fuel s hc hfuel inv
    have hcS : c ≤ S := by omega
    obtain ⟨f, rfl⟩ : ∃ f, fuel = f + 1 := ⟨fuel - 1, by omega⟩
    have hx : -x_bound + (c : Int) * xi ≤ x_bound := by
      have h1 : (c : Int) ≤ S := by exact_mod_cast hcS
      have h2 : (c : Int) * xi ≤ S * xi := Int.mul_le_mul_of_nonneg_right h1 (le_of_lt hxi)
      have h3 : (S : Int) * xi = 360 := by rw [Int.mul_comm]; exact hS
      unfold x_bound; omega
    have hb : 2 * (r * (S + 1) + c + 1) < 2 ^ 32 := by
      have : r * (S + 1) + c + 1 ≤ (r + 1) * (S + 1) := by
        have e1 : (r + 1) * (S + 1) = r * (S + 1) + (S + 1) := by ring
        omega
      omega
    have step := gridBody_inv env yi xi S r c s hxi hcS hb (fun h => inv.good h) inv
    have hx1 : -x_bound + (c : Int) * xi + xi = -x_bound + ((c + 1 : Nat) : Int) * xi := by
      push_cast; ring
    simp only [innerLoop, hx, if_true]
    rw [hx1]
    exact ih (c + 1) f _ (by omega) (by omega) step.1

/-- The outer loop, entered at row `r` with enough fuel for the `n` rows left,
terminates with the invariant of the finished grid of `T` rows. -/
theorem outerLoop_inv (env : MathEnv R) (yi xi : Int) (S T ifuel : Nat)
    (hxi : 0 < xi) (hS : xi * S = 360) (hyi : 0 < yi) (hT : yi * T = 180)
    (hbig : 2 * (T * (S + 1)) < 2 ^ 32) (hifuel : S + 1 ≤ ifuel) :
    ∀ (n r fuel : Nat) (s : InitState R), r + n = T → n ≤ fuel →
      GridInv env yi xi S (r * (S + 1)) (r * S) s.mesh s.history →
      ∃ s1, outerLoop env yi xi ifuel fuel (-y_bound + r * yi) s = some s1 ∧
        GridInv env yi xi S (T * (S + 1)) (T * S) s1.mesh s1.history := by
  intro n
  induction n with
  | zero =>
    intro r fuel s hr _ inv
    have hrT : r = T := by omega
    subst hrT
    have hy : ¬ (-y_bound + (r : Int) * yi < y_bound) := by
      have : (r : Int) * yi = 180 := by rw [Int.mul_comm]; exact hT
      rw [this]; unfold y_bound; omega
    refine ⟨s, ?_, inv⟩
    cases fuel <;> simp only [outerLoop, hy, if_false]
  | succ n ih =>
    intro r fuel s hr hfuel inv
    obtain ⟨f, rfl⟩ : ∃ f, fuel = f + 1 := ⟨fuel - 1, by omega⟩
    have hy : -y_bound + (r : Int) * yi < y_bound := by
      have h1 : (r : Int) + 1 ≤ T := by exact_mod_cast (show r + 1 ≤ T by omega)
      have h2 : ((r : Int) + 1) * yi ≤ T * yi := Int.mul_le_mul_of_nonneg_right h1 (le_of_lt hyi)
      have h3 : (T : Int) * yi = 180 := by rw [Int.mul_comm]; exact hT
      have h4 : ((r : Int) + 1) * yi = r * yi + yi := by ring
      unfold y_bound; omega
    have hb : 2 * ((r + 1) * (S + 1)) < 2 ^ 32 := by
      have : (r + 1) * (S + 1) ≤ T * (S + 1) := Nat.mul_le_mul_right _ (by omega)
      omega
    have inv0 : GridInv env yi xi S (r * (S + 1) + 0) (r * S + (0 - 1))
        ({ s with x_tex := 9 } : InitState R).mesh ({ s with x_tex := 9 } : InitState R).history :=
      inv
    obtain ⟨s1, hs1, inv1⟩ :=
      innerLoop_inv env yi xi S r hxi hS hb (S + 1) 0 ifuel _ (by omega) hifuel inv0
    have hx0 : -x_bound = -x_bound + ((0 : Nat) : Int) * xi := by simp
    have hy1 : -y_bound + (r : Int) * yi + yi = -y_bound + ((r + 1 : Nat) : Int) * yi := by
      push_cast; ring
    simp only [outerLoop, hy, if_true]
    rw [hx0, hs1]
    simp only []
    rw [hy1]
    exact ih (r + 1) f _ (by omega) (by omega) inv1

theorem grid_count_le (S T r c : Nat) (hr : r < T) (hc : c ≤ S) :
    r * (S + 1) + c + 1 ≤ T * (S + 1) := by
  have h1 : (r + 1) * (S + 1) ≤ T * (S + 1) := Nat.mul_le_mul_right _ (by omega)
  have h2 : (r + 1) * (S + 1) = r * (S + 1) + (S + 1) := by ring
  omega

theorem interval_facts (n k : Nat) (hn : 0 < n) (hd : n ∣ k) (hk : 0 < k) :
    ((k : Int) / (n : Int)) * n = k ∧ (0 : Int) < (k : Int) / (n : Int) ∧ n ≤ k := by
  have hdz : (n : Int) ∣ (k : Int) := Int.natCast_dvd_natCast.2 hd
  have h1 : ((k : Int) / (n : Int)) * n = k := Int.ediv_mul_cancel hdz
  have hn0 : (0 : Int) < n := by exact_mod_cast hn
  have hk0 : (0 : Int) < k := by exact_mod_cast hk
  refine ⟨h1, ?_, Nat.le_of_dvd hk hd⟩
  by_contra hneg
  have : ((k : Int) / (n : Int)) * n ≤ 0 :=
    Int.mul_nonpos_of_nonpos_of_nonneg (by omega) (le_of_lt hn0)
  omega

/-- For stack and slice counts that divide 180 and 360 the grid loop terminates, given
fuel for `nstacks` outer and `nslices + 1` inner iterations, in the closed form. -/
theorem Init_inv (env : MathEnv R) (nstacks nslices fuel : Nat)
    (h1 : 0 < nstacks) (hd1 : nstacks ∣ 180) (h2 : 0 < nslices) (hd2 : nslices ∣ 360)
    (hf1 : nstacks ≤ fuel) (hf2 : nslices + 1 ≤ fuel) :
    ∃ s, Init env nstacks nslices fuel = some s ∧
      GridInv env (y_interval nstacks) (x_interval nslices) nslices
        (nstacks * (nslices + 1)) (nstacks * nslices) s.mesh s.history := by
  obtain ⟨a1, a2, a3⟩ := interval_facts nstacks 180 h1 hd1 (by omega)
  obtain ⟨b1, b2, b3⟩ := interval_facts nslices 360 h2 hd2 (by omega)
  have hbig : 2 * (nstacks * (nslices + 1)) < 2 ^ 32 := by
    have : nstacks * (nslices + 1) ≤ 180 * 361 := Nat.mul_le_mul a3 (by omega)
    omega
  have inv0 : GridInv env (y_interval nstacks) (x_interval nslices) nslices
      (0 * (nslices + 1)) (0 * nslices) (initState : InitState R).mesh
      (initState : InitState R).history := by
    refine ⟨?_, ?_, ?_, ?_, ?_, ?_, ?_, ?_, ?_⟩ <;> simp [initState]
  have hy0 : -y_bound = -y_bound + ((0 : Nat) : Int) * y_interval nstacks := by simp
  unfold Init
  rw [hy0]
  exact outerLoop_inv env (y_interval nstacks) (x_interval nslices) nslices nstacks fuel
    b2 b1 a2 a1 hbig hf2 nstacks 0 fuel initState (by omega) hf1 inv0

end GridLemmas

/-! ## Theorems on `Earth::Init` -/

section EarthTheorems

variable {R : Type} [Field R]

/-- C1: for stack counts dividing 180 and slice counts dividing 360 the grid loop of
`Earth::Init` terminates with `6 * nstacks * nslices` indices and `2 * nstacks * (nslices + 1)`
entries in each per-vertex array; for the hard-coded `nstacks = nslices = 10` these are
600 indices and 220 vertices. -/
theorem Init_mesh_sizes (env : MathEnv R) :
    (∀ nstacks nslices fuel : Nat, 1 ≤ nstacks → nstacks ∣ 180 → 1 ≤ nslices → nslices ∣ 360 →
      nstacks ≤ fuel → nslices + 1 ≤ fuel →
      ∃ s, Init env nstacks nslices fuel = some s ∧
        s.mesh.indices.length = 6 * nstacks * nslices ∧
        s.mesh.plane_vertices.length = 2 * nstacks * (nslices + 1) ∧
        s.mesh.sphere_vertices.length = 2 * nstacks * (nslices + 1) ∧
        s.mesh.plane_normals.length = 2 * nstacks * (nslices + 1) ∧
        s.mesh.sphere_normals.length = 2 * nstacks * (nslices + 1) ∧
        s.mesh.tex_coords.length = 2 * nstacks * (nslices + 1)) ∧
    (∀ fuel : Nat, 11 ≤ fuel →
      ∃ s, Init env 10 10 fuel = some s ∧
        s.mesh.indices.length = 600 ∧
        s.mesh.plane_vertices.length = 220 ∧
        s.mesh.sphere_vertices.length = 220 ∧
        s.mesh.plane_normals.length = 220 ∧
        s.mesh.sphere_normals.length = 220 ∧
        s.mesh.tex_coords.length = 220) := by
  have general : ∀ nstacks nslices fuel : Nat, 1 ≤ nstacks → nstacks ∣ 180 → 1 ≤ nslices →
      nslices ∣ 360 → nstacks ≤ fuel → nslices + 1 ≤ fuel →
      ∃ s, Init env nstacks nslices fuel = some s ∧
        s.mesh.indices.length = 6 * nstacks * nslices ∧
        s.mesh.plane_vertices.length = 2 * nstacks * (nslices + 1) ∧
        s.mesh.sphere_vertices.length = 2 * nstacks * (nslices + 1) ∧
        s.mesh.plane_normals.length = 2 * nstacks * (nslices + 1) ∧
        s.mesh.sphere_normals.length = 2 * nstacks * (nslices + 1) ∧
        s.mesh.tex_coords.length = 2 * nstacks * (nslices + 1) := by
    intro nstacks nslices fuel h1 hd1 h2 hd2 hf1 hf2
    obtain ⟨s, hs, inv⟩ := Init_inv env nstacks nslices fuel h1 hd1 h2 hd2 hf1 hf2
    obtain ⟨l1, l2, l3, l4, l5, l6⟩ := inv.lengths
    refine ⟨s, hs, ?_, ?_, ?_, ?_, ?_, ?_⟩
    · rw [l6, Nat.mul_assoc]
    · rw [l1, Nat.mul_assoc]
    · rw [l2, Nat.mul_assoc]
    · rw [l3, Nat.mul_assoc]
    · rw [l4, Nat.mul_assoc]
    · rw [l5, Nat.mul_assoc]
  refine ⟨general, ?_⟩
  intro fuel hf
  exact general 10 10 fuel (by decide) (by decide) (by decide) (by decide) (by omega) (by omega)

theorem Init_mesh_sizes_witness :
    1 ≤ 10 ∧ 10 ∣ 180 ∧ 1 ≤ 10 ∧ 10 ∣ 360 ∧ 10 ≤ 11 ∧ 10 + 1 ≤ 11 ∧
    ∃ s, Init sampleEnv 10 10 11 = some s ∧
      s.mesh.indices.length = 6 * 10 * 10 ∧
      s.mesh.plane_vertices.length = 2 * 10 * (10 + 1) ∧
      s.mesh.sphere_vertices.length = 2 * 10 * (10 + 1) ∧
      s.mesh.plane_normals.length = 2 * 10 * (10 + 1) ∧
      s.mesh.sphere_normals.length = 2 * 10 * (10 + 1) ∧
      s.mesh.tex_coords.length = 2 * 10 * (10 + 1) :=
  ⟨by decide, by decide, by decide, by decide, by decide, by decide,
    (Init_mesh_sizes sampleEnv).1 10 10 11 (by decide) (by decide) (by decide) (by decide)
      (by decide) (by decide)⟩

/-- C2: at the end of the grid loop of `Earth::Init`, and at the end of every iteration
of its inner loop, the five per-vertex arrays have the same length and every stored
index is below that length; whenever an iteration pushed indices (`x > -x_bound`) the
array held at least 4 vertices, so `size - 4`, ..., `size - 1` did not wrap. -/
theorem Init_mesh_invariant (env : MathEnv R) (nstacks nslices fuel : Nat)
    (h1 : 1 ≤ nstacks) (hd1 : nstacks ∣ 180) (h2 : 1 ≤ nslices) (hd2 : nslices ∣ 360)
    (hf1 : nstacks ≤ fuel) (hf2 : nslices + 1 ≤ fuel) :
    ∃ s, Init env nstacks nslices fuel = some s ∧
      (s.mesh.sphere_vertices.length = s.mesh.plane_vertices.length ∧
        s.mesh.plane_normals.length = s.mesh.plane_vertices.length ∧
        s.mesh.sphere_normals.length = s.mesh.plane_vertices.length ∧
        s.mesh.tex_coords.length = s.mesh.plane_vertices.length ∧
        ∀ i ∈ s.mesh.indices, i < s.mesh.plane_vertices.length) ∧
      s.history.length = nstacks * (nslices + 1) ∧
      ∀ e ∈ s.history,
        (e.mesh.sphere_vertices.length = e.mesh.plane_vertices.length ∧
          e.mesh.plane_normals.length = e.mesh.plane_vertices.length ∧
          e.mesh.sphere_normals.length = e.mesh.plane_vertices.length ∧
          e.mesh.tex_coords.length = e.mesh.plane_vertices.length ∧
          ∀ i ∈ e.mesh.indices, i < e.mesh.plane_vertices.length) ∧
        (e.x > -x_bound → 4 ≤ e.mesh.plane_vertices.length) := by
  obtain ⟨s, hs, inv⟩ := Init_inv env nstacks nslices fuel h1 hd1 h2 hd2 hf1 hf2
  have hpos : 0 < nstacks * (nslices + 1) := Nat.mul_pos h1 (by omega)
  refine ⟨s, hs, inv.good hpos, inv.hlen, ?_⟩
  intro e he
  obtain ⟨j, hj⟩ := List.getElem?_of_mem he
  obtain ⟨-, ex, -, el, eg⟩ := inv.hist j e hj
  refine ⟨eg, ?_⟩
  intro hx
  have hm : j % (nslices + 1) ≠ 0 := by
    intro h0
    rw [ex, h0] at hx
    simp at hx
  have hj1 : 1 ≤ j := by
    rcases Nat.eq_zero_or_pos j with h | h
    · subst h; simp at hm
    · exact h
  rw [el]
  omega

theorem Init_mesh_invariant_witness :
    1 ≤ 10 ∧ 10 ∣ 180 ∧ 1 ≤ 10 ∧ 10 ∣ 360 ∧ 10 ≤ 11 ∧ 10 + 1 ≤ 11 ∧
    ∃ s, Init sampleEnv 10 10 11 = some s ∧
      (s.mesh.sphere_vertices.length = s.mesh.plane_vertices.length ∧
        s.mesh.plane_normals.length = s.mesh.plane_vertices.length ∧
        s.mesh.sphere_normals.length = s.mesh.plane_vertices.length ∧
        s.mesh.tex_coords.length = s.mesh.plane_vertices.length ∧
        ∀ i ∈ s.mesh.indices, i < s.mesh.plane_vertices.length) ∧
      s.history.length = 10 * (10 + 1) ∧
      ∀ e ∈ s.history,
        (e.mesh.sphere_vertices.length = e.mesh.plane_vertices.length ∧
          e.mesh.plane_normals.length = e.mesh.plane_vertices.length ∧
          e.mesh.sphere_normals.length = e.mesh.plane_vertices.length ∧
          e.mesh.tex_coords.length = e.mesh.plane_vertices.length ∧
          ∀ i ∈ e.mesh.indices, i < e.mesh.plane_vertices.length) ∧
        (e.x > -x_bound → 4 ≤ e.mesh.plane_vertices.length) :=
  ⟨by decide, by decide, by decide, by decide, by decide, by decide,
    Init_mesh_invariant sampleEnv 10 10 11 (by decide) (by decide) (by decide) (by decide)
      (by decide) (by decide)⟩

/-- C3: vertex `k = 2 * (r * (nslices + 1) + c)` of `plane_vertices` is
`LatLongToPlane` of the sample (row `r`, column `c`), vertex `k + 1` that of the sample
one latitude step further, and `sphere_vertices` holds `LatLongToSphere` of the same two
samples at the same two indices. -/
theorem Init_vertices_at_samples (env : MathEnv R) (nstacks nslices fuel : Nat)
    (h1 : 1 ≤ nstacks) (hd1 : nstacks ∣ 180) (h2 : 1 ≤ nslices) (hd2 : nslices ∣ 360)
    (hf1 : nstacks ≤ fuel) (hf2 : nslices + 1 ≤ fuel) :
    ∃ s, Init env nstacks nslices fuel = some s ∧
      ∀ r c : Nat, r < nstacks → c ≤ nslices →
        let latStep : Int := 180 / (nstacks : Int)
        let lonStep : Int := 360 / (nslices : Int)
        let k := 2 * (r * (nslices + 1) + c)
        s.mesh.plane_vertices[k]? = some (LatLongToPlane env
          ((-90 + (r : Int) * latStep : Int) : R) ((-180 + (c : Int) * lonStep : Int) : R)) ∧
        s.mesh.plane_vertices[k + 1]? = some (LatLongToPlane env
          ((-90 + ((r : Int) + 1) * latStep : Int) : R)
          ((-180 + (c : Int) * lonStep : Int) : R)) ∧
        s.mesh.sphere_vertices[k]? = some (LatLongToSphere env
          ((-90 + (r : Int) * latStep : Int) : R) ((-180 + (c : Int) * lonStep : Int) : R)) ∧
        s.mesh.sphere_vertices[k + 1]? = some (LatLongToSphere env
          ((-90 + ((r : Int) + 1) * latStep : Int) : R)
          ((-180 + (c : Int) * lonStep : Int) : R)) := by
  obtain ⟨s, hs, inv⟩ := Init_inv env nstacks nslices fuel h1 hd1 h2 hd2 hf1 hf2
  refine ⟨s, hs, ?_⟩
  intro r c hr hc
  have hcw : c < nslices + 1 := by omega
  have hN := grid_count_le nslices nstacks r c hr hc
  have hk0 : 2 * (r * (nslices + 1) + c) < 2 * (nstacks * (nslices + 1)) := by omega
  have hk1 : 2 * (r * (nslices + 1) + c) + 1 < 2 * (nstacks * (nslices + 1)) := by omega
  have elat0 := gridLat_even (y_interval nstacks) (nslices + 1) r c hcw
  have elat1 := gridLat_odd (y_interval nstacks) (nslices + 1) r c hcw
  have elon0 := gridLon_even (x_interval nslices) (nslices + 1) r c hcw
  have elon1 := gridLon_odd (x_interval nslices) (nslices + 1) r c hcw
  have e1 : (-90 + ((r : Int) + 1) * (180 / (nstacks : Int)) : Int) =
      -y_bound + r * y_interval nstacks + y_interval nstacks := by
    unfold y_bound y_interval; ring
  have e0 : (-90 + (r : Int) * (180 / (nstacks : Int)) : Int) =
      -y_bound + r * y_interval nstacks := rfl
  have e2 : (-180 + (c : Int) * (360 / (nslices : Int)) : Int) =
      -x_bound + c * x_interval nslices := rfl
  simp only [inv.pv, inv.sv, List.getElem?_map, List.getElem?_range hk0,
    List.getElem?_range hk1, Option.map_some', planeAt, sphereAt, elat0, elat1, elon0, elon1,
    e0, e1, e2, and_self]

theorem Init_vertices_at_samples_witness :
    1 ≤ 10 ∧ 10 ∣ 180 ∧ 1 ≤ 10 ∧ 10 ∣ 360 ∧ 10 ≤ 11 ∧ 10 + 1 ≤ 11 ∧
    ∃ s, Init sampleEnv 10 10 11 = some s ∧
      ∀ r c : Nat, r < 10 → c ≤ 10 →
        let latStep : Int := 180 / ((10 : Nat) : Int)
        let lonStep : Int := 360 / ((10 : Nat) : Int)
        let k := 2 * (r * (10 + 1) + c)
        s.mesh.plane_vertices[k]? = some (LatLongToPlane sampleEnv
          ((-90 + (r : Int) * latStep : Int) : ℚ) ((-180 + (c : Int) * lonStep : Int) : ℚ)) ∧
        s.mesh.plane_vertices[k + 1]? = some (LatLongToPlane sampleEnv
          ((-90 + ((r : Int) + 1) * latStep : Int) : ℚ)
          ((-180 + (c : Int) * lonStep : Int) : ℚ)) ∧
        s.mesh.sphere_vertices[k]? = some (LatLongToSphere sampleEnv
          ((-90 + (r : Int) * latStep : Int) : ℚ) ((-180 + (c : Int) * lonStep : Int) : ℚ)) ∧
        s.mesh.sphere_vertices[k + 1]? = some (LatLongToSphere sampleEnv
          ((-90 + ((r : Int) + 1) * latStep : Int) : ℚ)
          ((-180 + (c : Int) * lonStep : Int) : ℚ)) :=
  ⟨by decide, by decide, by decide, by decide, by decide, by decide,
    Init_vertices_at_samples sampleEnv 10 10 11 (by decide) (by decide) (by decide)
      (by decide) (by decide) (by decide)⟩

/-- C10: in the final index buffer the six entries at position
`6 * (r * nslices + (c - 1))` are `k - 2, k, k - 1, k, k + 1, k - 1` for
`k = 2 * (r * (nslices + 1) + c)` and every column `c ≥ 1` of every row `r`; and the
iteration at row `r`, column `c` leaves the buffer it found unchanged when `c = 0` and
appends exactly these six entries to it when `c ≥ 1`. -/
theorem Init_index_buffer (env : MathEnv R) (nstacks nslices fuel : Nat)
    (h1 : 1 ≤ nstacks) (hd1 : nstacks ∣ 180) (h2 : 1 ≤ nslices) (hd2 : nslices ∣ 360)
    (hf1 : nstacks ≤ fuel) (hf2 : nslices + 1 ≤ fuel) :
    ∃ s, Init env nstacks nslices fuel = some s ∧
      (∀ r c : Nat, r < nstacks → 1 ≤ c → c ≤ nslices →
        let k := 2 * (r * (nslices + 1) + c)
        (s.mesh.indices.drop (6 * (r * nslices + (c - 1)))).take 6 =
          [k - 2, k, k - 1, k, k + 1, k - 1]) ∧
      (∀ r c : Nat, r < nstacks → c ≤ nslices →
        let k := 2 * (r * (nslices + 1) + c)
        ∃ e, s.history[r * (nslices + 1) + c]? = some e ∧
          e.y = -90 + (r : Int) * (180 / (nstacks : Int)) ∧
          e.x = -180 + (c : Int) * (360 / (nslices : Int)) ∧
          e.mesh.indices = indicesBefore s.history (r * (nslices + 1) + c) ++
            (if c = 0 then [] else [k - 2, k, k - 1, k, k + 1, k - 1])) := by
  obtain ⟨s, hs, inv⟩ := Init_inv env nstacks nslices fuel h1 hd1 h2 hd2 hf1 hf2
  refine ⟨s, hs, ?_, ?_⟩
  · intro r c hr hc1 hc
    have hq : r * nslices + c ≤ nstacks * nslices := by
      have a1 : (r + 1) * nslices ≤ nstacks * nslices := Nat.mul_le_mul_right _ (by omega)
      have a2 : (r + 1) * nslices = r * nslices + nslices := by ring
      omega
    have e6 : 6 * (r * nslices + (c - 1)) + 6 = 6 * (r * nslices + c) := by omega
    simp only []
    rw [List.take_drop, e6, inv.idx,
      map_range_take (quadIndex nslices) _ _ (by omega), quadIndex_block nslices r c hc1 hc]
    exact List.drop_left' (by simp)
  · intro r c hr hc
    have hcw : c < nslices + 1 := by omega
    have hN := grid_count_le nslices nstacks r c hr hc
    have hlt : r * (nslices + 1) + c < s.history.length := by rw [inv.hlen]; omega
    obtain ⟨d1, d2⟩ := div_mod_row (nslices + 1) r c hcw
    refine ⟨s.history[r * (nslices + 1) + c], List.getElem?_eq_getElem hlt, ?_⟩
    obtain ⟨ey, ex, ei, -, -⟩ := inv.hist _ _ (List.getElem?_eq_getElem hlt)
    rw [d1] at ey
    rw [d2] at ex
    rw [d1, d2] at ei
    refine ⟨ey, ex, ?_⟩
    rw [ei]
    by_cases hc0 : c = 0
    · subst hc0
      simp only [if_true, List.append_nil, Nat.add_zero]
      rcases Nat.eq_zero_or_pos r with hr0 | hr0
      · subst hr0
        simp [indicesBefore]
      · obtain ⟨r1, rfl⟩ : ∃ r1, r = r1 + 1 := ⟨r - 1, by omega⟩
        have ej : (r1 + 1) * (nslices + 1) = (r1 * (nslices + 1) + nslices) + 1 := by ring
        have hlt1 : r1 * (nslices + 1) + nslices < s.history.length := by
          rw [inv.hlen]; omega
        obtain ⟨p1, p2⟩ := div_mod_row (nslices + 1) r1 nslices (by omega)
        obtain ⟨-, -, pi, -, -⟩ := inv.hist _ _ (List.getElem?_eq_getElem hlt1)
        rw [p1, p2] at pi
        have hb : indicesBefore s.history ((r1 * (nslices + 1) + nslices) + 1) =
            (List.range (6 * (r1 * nslices + nslices))).map (quadIndex nslices) := by
          show (s.history[r1 * (nslices + 1) + nslices]?.map fun e => e.mesh.indices).getD [] = _
          rw [List.getElem?_eq_getElem hlt1]
          exact pi
        rw [ej, hb]
        congr 2
        ring
    · obtain ⟨c1, rfl⟩ : ∃ c1, c = c1 + 1 := ⟨c - 1, by omega⟩
      have ej : r * (nslices + 1) + (c1 + 1) = (r * (nslices + 1) + c1) + 1 := by ring
      have hlt1 : r * (nslices + 1) + c1 < s.history.length := by
        rw [inv.hlen]; omega
      obtain ⟨p1, p2⟩ := div_mod_row (nslices + 1) r c1 (by omega)
      obtain ⟨-, -, pi, -, -⟩ := inv.hist _ _ (List.getElem?_eq_getElem hlt1)
      rw [p1, p2] at pi
      have hb : indicesBefore s.history ((r * (nslices + 1) + c1) + 1) =
          (List.range (6 * (r * nslices + c1))).map (quadIndex nslices) := by
        show (s.history[r * (nslices + 1) + c1]?.map fun e => e.mesh.indices).getD [] = _
        rw [List.getElem?_eq_getElem hlt1]
        exact pi
      simp only [hc0, if_false]
      rw [quadIndex_block nslices r (c1 + 1) (by omega) hc, ej, hb]
      rfl

theorem Init_index_buffer_witness :
    1 ≤ 10 ∧ 10 ∣ 180 ∧ 1 ≤ 10 ∧ 10 ∣ 360 ∧ 10 ≤ 11 ∧ 10 + 1 ≤ 11 ∧
    ∃ s, Init sampleEnv 10 10 11 = some s ∧
      (∀ r c : Nat, r < 10 → 1 ≤ c → c ≤ 10 →
        let k := 2 * (r * (10 + 1) + c)
        (s.mesh.indices.drop (6 * (r * 10 + (c - 1)))).take 6 =
          [k - 2, k, k - 1, k, k + 1, k - 1]) ∧
      (∀ r c : Nat, r < 10 → c ≤ 10 →
        let k := 2 * (r * (10 + 1) + c)
        ∃ e, s.history[r * (10 + 1) + c]? = some e ∧
          e.y = -90 + (r : Int) * (180 / ((10 : Nat) : Int)) ∧
          e.x = -180 + (c : Int) * (360 / ((10 : Nat) : Int)) ∧
          e.mesh.indices = indicesBefore s.history (r * (10 + 1) + c) ++
            (if c = 0 then [] else [k - 2, k, k - 1, k, k + 1, k - 1])) :=
  ⟨by decide, by decide, by decide, by decide, by decide, by decide,
    Init_index_buffer sampleEnv 10 10 11 (by decide) (by decide) (by decide) (by decide)
      (by decide) (by decide)⟩

/-- C9: over the reals, with the real cosine and sine, the point returned by
`Earth::LatLongToSphere` has `x^2 + y^2 + z^2 = 1` for every latitude and longitude;
hence every entry of `sphere_vertices` built by `Earth::Init` lies on the unit sphere
and the entry of `sphere_normals` at the same index has the same three components. -/
theorem LatLongToSphere_on_unit_sphere (env : MathEnv ℝ)
    (hcos : env.cos = Real.cos) (hsin : env.sin = Real.sin) :
    (∀ latitude longitude : ℝ,
      (LatLongToSphere env latitude longitude).x ^ 2 +
        (LatLongToSphere env latitude longitude).y ^ 2 +
        (LatLongToSphere env latitude longitude).z ^ 2 = 1) ∧
    (∀ nstacks nslices fuel : Nat, 1 ≤ nstacks → nstacks ∣ 180 → 1 ≤ nslices →
      nslices ∣ 360 → nstacks ≤ fuel → nslices + 1 ≤ fuel →
      ∃ s, Init env nstacks nslices fuel = some s ∧
        s.mesh.sphere_normals.length = s.mesh.sphere_vertices.length ∧
        ∀ (i : Nat) (p : Point3 ℝ), s.mesh.sphere_vertices[i]? = some p →
          p.x ^ 2 + p.y ^ 2 + p.z ^ 2 = 1 ∧
          s.mesh.sphere_normals[i]? = some ⟨p.x, p.y, p.z⟩) := by
  have unit : ∀ latitude longitude : ℝ,
      (LatLongToSphere env latitude longitude).x ^ 2 +
        (LatLongToSphere env latitude longitude).y ^ 2 +
        (LatLongToSphere env latitude longitude).z ^ 2 = 1 := by
    intro latitude longitude
    simp only [LatLongToSphere, hcos, hsin]
    have ha := Real.sin_sq_add_cos_sq (env.ToRadians latitude)
    have hb := Real.sin_sq_add_cos_sq (env.ToRadians longitude)
    linear_combination (Real.cos (env.ToRadians latitude)) ^ 2 * hb + ha
  refine ⟨unit, ?_⟩
  intro nstacks nslices fuel h1 hd1 h2 hd2 hf1 hf2
  obtain ⟨s, hs, inv⟩ := Init_inv env nstacks nslices fuel h1 hd1 h2 hd2 hf1 hf2
  obtain ⟨-, l2, -, l4, -, -⟩ := inv.lengths
  refine ⟨s, hs, by rw [l2, l4], ?_⟩
  intro i p hp
  rw [inv.sv, List.getElem?_map] at hp
  rw [inv.sn, List.getElem?_map]
  cases hi : (List.range (2 * (nstacks * (nslices + 1))))[i]? with
  | none => rw [hi] at hp; simp at hp
  | some j =>
    rw [hi] at hp
    simp only [Option.map_some', Option.some.injEq] at hp
    subst hp
    refine ⟨unit _ _, ?_⟩
    simp [Point3.sub]

theorem LatLongToSphere_on_unit_sphere_witness :
    ((⟨Real.pi, Real.cos, Real.sin, fun d => d * Real.pi / 180⟩ : MathEnv ℝ).cos = Real.cos ∧
      (⟨Real.pi, Real.cos, Real.sin, fun d => d * Real.pi / 180⟩ : MathEnv ℝ).sin = Real.sin) ∧
    (LatLongToSphere (⟨Real.pi, Real.cos, Real.sin, fun d => d * Real.pi / 180⟩ : MathEnv ℝ)
        45 90).x ^ 2 +
      (LatLongToSphere (⟨Real.pi, Real.cos, Real.sin, fun d => d * Real.pi / 180⟩ : MathEnv ℝ)
        45 90).y ^ 2 +
      (LatLongToSphere (⟨Real.pi, Real.cos, Real.sin, fun d => d * Real.pi / 180⟩ : MathEnv ℝ)
        45 90).z ^ 2 = 1 ∧
    (1 ≤ 10 ∧ 10 ∣ 180 ∧ 1 ≤ 10 ∧ 10 ∣ 360 ∧ 10 ≤ 11 ∧ 10 + 1 ≤ 11) ∧
    ∃ s, Init (⟨Real.pi, Real.cos, Real.sin, fun d => d * Real.pi / 180⟩ : MathEnv ℝ)
        10 10 11 = some s ∧
      s.mesh.sphere_normals.length = s.mesh.sphere_vertices.length ∧
      ∀ (i : Nat) (p : Point3 ℝ), s.mesh.sphere_vertices[i]? = some p →
        p.x ^ 2 + p.y ^ 2 + p.z ^ 2 = 1 ∧
        s.mesh.sphere_normals[i]? = some ⟨p.x, p.y, p.z⟩ :=
  ⟨⟨rfl, rfl⟩,
    (LatLongToSphere_on_unit_sphere ⟨Real.pi, Real.cos, Real.sin, fun d => d * Real.pi / 180⟩
      rfl rfl).1 45 90,
    ⟨by decide, by decide, by decide, by decide, by decide, by decide⟩,
    (LatLongToSphere_on_unit_sphere ⟨Real.pi, Real.cos, Real.sin, fun d => d * Real.pi / 180⟩
      rfl rfl).2 10 10 11 (by decide) (by decide) (by decide) (by decide) (by decide)
      (by decide)⟩

end EarthTheorems

/-! ## Theorems on `QuakeApp::UpdateSimulation` -/

section ClockTheorems

variable {R : Type} [LinearOrderedField R]

/-- C4: `UpdateSimulation` leaves `current_time_` equal to `first_event_time` if
`current_time + rate * dt > last_event_time`, else to `last_event_time` if
`current_time + rate * dt < first_event_time`, else to `current_time + rate * dt`: the
two sequential `if`s compute the spec's if / else-if wrap rule. -/
theorem UpdateSimulation_wrap_rule (current_time rate dt first_event_time last_event_time : R)
    (wraps : Nat) :
    (UpdateSimulation first_event_time last_event_time dt
        ⟨current_time, rate, wraps⟩).current_time_ =
      if current_time + rate * dt > last_event_time then first_event_time
      else if current_time + rate * dt < first_event_time then last_event_time
      else current_time + rate * dt := by
  by_cases h1 : current_time + rate * dt > last_event_time
  · simp only [UpdateSimulation, h1, if_true, lt_irrefl, if_false]
  · by_cases h2 : current_time + rate * dt < first_event_time
    · simp only [UpdateSimulation, h1, h2, if_true, if_false]
    · simp only [UpdateSimulation, h1, h2, if_false]

end ClockTheorems

/-! ## Theorems on `QuakeApp::VisualizeEarthQuake` -/

section ClassifierTheorems

variable {R : Type} [LinearOrderedField R]

/-- For `minVal < maxVal` the division is an ordinary one and the function is the
five-way cascade on the quotient `t`. -/
theorem VisualizeEarthQuake_cascade (minVal maxVal magnitude : R) (p : Point3 R)
    (l : Locals R) (h : minVal < maxVal) :
    VisualizeEarthQuake minVal maxVal magnitude p l =
      Except.ok
        (if 4 / 10 < (magnitude - minVal) / (maxVal - minVal) then
          ⟨⟨255, 0, 0⟩, p.sub ⟨0, 0, 0⟩,
            ⟨l.sphere_size + 9 / 100, l.sphere_size + 9 / 100, l.sphere_size + 9 / 100⟩⟩
        else if 3 / 10 < (magnitude - minVal) / (maxVal - minVal) then
          ⟨⟨255, 128, 0⟩, p.sub ⟨0, 0, 0⟩,
            ⟨l.sphere_size + 8 / 100, l.sphere_size + 8 / 100, l.sphere_size + 8 / 100⟩⟩
        else if 2 / 10 < (magnitude - minVal) / (maxVal - minVal) then
          ⟨⟨255, 255, 0⟩, p.sub ⟨0, 0, 0⟩,
            ⟨l.sphere_size + 7 / 100, l.sphere_size + 7 / 100, l.sphere_size + 7 / 100⟩⟩
        else if 1 / 10 < (magnitude - minVal) / (maxVal - minVal) then
          ⟨⟨128, 255, 0⟩, p.sub ⟨0, 0, 0⟩, ⟨6 / 100, 6 / 100, 6 / 100⟩⟩
        else if 0 < (magnitude - minVal) / (maxVal - minVal) then
          ⟨⟨0, 255, 0⟩, p.sub ⟨0, 0, 0⟩, ⟨5 / 100, 5 / 100, 5 / 100⟩⟩
        else
          ⟨⟨l.r, l.g, l.b⟩, p.sub ⟨0, 0, 0⟩, ⟨l.sphere_size, l.sphere_size, l.sphere_size⟩⟩) := by
  have hne : maxVal - minVal ≠ 0 := by
    intro h0; linarith
  simp only [VisualizeEarthQuake, fdiv, hne, if_false, FloatVal.gt, decide_eq_true_eq]
  split_ifs <;> rfl

/-- For `minVal = maxVal = m` the divisor is zero: the quotient is `+inf` for a magnitude
above `m`, and `-inf` or a NaN otherwise. -/
theorem VisualizeEarthQuake_degenerate (m magnitude : R) (p : Point3 R) (l : Locals R) :
    VisualizeEarthQuake m m magnitude p l =
      Except.ok
        (if m < magnitude then
          ⟨⟨255, 0, 0⟩, p.sub ⟨0, 0, 0⟩,
            ⟨l.sphere_size + 9 / 100, l.sphere_size + 9 / 100, l.sphere_size + 9 / 100⟩⟩
        else
          ⟨⟨l.r, l.g, l.b⟩, p.sub ⟨0, 0, 0⟩, ⟨l.sphere_size, l.sphere_size, l.sphere_size⟩⟩) := by
  by_cases h : m < magnitude
  · have h1 : 0 < magnitude - m := by linarith
    simp [VisualizeEarthQuake, fdiv, FloatVal.gt, h, h1]
  · by_cases h2 : magnitude - m < 0
    · have h1 : ¬ (0 < magnitude - m) := by linarith
      simp [VisualizeEarthQuake, fdiv, FloatVal.gt, h, h1, h2]
    · have h1 : ¬ (0 < magnitude - m) := by linarith
      simp [VisualizeEarthQuake, fdiv, FloatVal.gt, h, h1, h2]

/-- C7 fails on the code: with `minMagnitude = 2`, `maxMagnitude = 6`, `magnitude = 6`
(so `t = 1 > 0.4`) and the uninitialised `sphere_size` holding `1` on entry, the size
handed to the scale matrix is `1 + 0.09`, not the tier's `0.09`: the three upper tiers
do `sphere_size += ...` where the two lower ones do `sphere_size = ...`. -/
theorem VisualizeEarthQuake_size_adds_to_prior :
    (VisualizeEarthQuake (2 : ℚ) 6 6 ⟨0, 0, 0⟩ ⟨1, 0, 0, 0⟩).map Marker.scale =
      Except.ok ⟨109 / 100, 109 / 100, 109 / 100⟩ ∧
    (VisualizeEarthQuake (2 : ℚ) 6 6 ⟨0, 0, 0⟩ ⟨1, 0, 0, 0⟩).map Marker.scale ≠
      Except.ok ⟨9 / 100, 9 / 100, 9 / 100⟩ := by
  have h : (VisualizeEarthQuake (2 : ℚ) 6 6 ⟨0, 0, 0⟩ ⟨1, 0, 0, 0⟩).map Marker.scale =
      Except.ok ⟨109 / 100, 109 / 100, 109 / 100⟩ := by
    rw [VisualizeEarthQuake_cascade (2 : ℚ) 6 6 ⟨0, 0, 0⟩ ⟨1, 0, 0, 0⟩ (by norm_num)]
    norm_num [Except.map]
  refine ⟨h, ?_⟩
  rw [h]
  norm_num

/-- C8 as stated fails: with `min_magnitude() = max_magnitude() = 5` and magnitude `7`
the division is performed, its result is `+inf`, and the function returns the red
marker instead of failing with a `DataError`. -/
theorem VisualizeEarthQuake_degenerate_range_returns :
    fdiv ((7 : ℚ) - 5) (5 - 5) = FloatVal.posInf ∧
    VisualizeEarthQuake (5 : ℚ) 5 7 ⟨0, 0, 0⟩ ⟨0, 0, 0, 0⟩ =
      Except.ok ⟨⟨255, 0, 0⟩, ⟨0, 0, 0⟩, ⟨9 / 100, 9 / 100, 9 / 100⟩⟩ ∧
    VisualizeEarthQuake (5 : ℚ) 5 7 ⟨0, 0, 0⟩ ⟨0, 0, 0, 0⟩ ≠
      Except.error DataError.degenerateMagnitudeRange := by
  have h : VisualizeEarthQuake (5 : ℚ) 5 7 ⟨0, 0, 0⟩ ⟨0, 0, 0, 0⟩ =
      Except.ok ⟨⟨255, 0, 0⟩, ⟨0, 0, 0⟩, ⟨9 / 100, 9 / 100, 9 / 100⟩⟩ := by
    rw [VisualizeEarthQuake_degenerate]
    norm_num [Point3.sub]
  refine ⟨?_, h, ?_⟩
  · norm_num [fdiv]
  · rw [h]
    exact fun hh => nomatch hh

/-- C8, as the code has it: with `min_magnitude() = max_magnitude() = m` the function
raises no error; the float division by zero is performed and the function returns, with
the red colour for a magnitude above `m` (quotient `+inf`) and with no colour assigned
for a magnitude of at most `m` (quotient NaN or `-inf`). -/
theorem VisualizeEarthQuake_degenerate_range (magnitude m : R) (p : Point3 R)
    (l : Locals R) :
    ∃ mk, VisualizeEarthQuake m m magnitude p l = Except.ok mk ∧
      (m < magnitude → mk.col = ⟨255, 0, 0⟩) ∧
      (magnitude ≤ m → mk.col = ⟨l.r, l.g, l.b⟩) := by
  refine ⟨_, VisualizeEarthQuake_degenerate m magnitude p l, ?_, ?_⟩
  · intro h; rw [if_pos h]
  · intro h; rw [if_neg (not_lt.2 h)]

theorem VisualizeEarthQuake_degenerate_range_witness :
    (5 : ℚ) < 7 ∧
    ∃ mk, VisualizeEarthQuake (5 : ℚ) 5 7 ⟨0, 0, 0⟩ ⟨0, 0, 0, 0⟩ = Except.ok mk ∧
      mk.col = ⟨255, 0, 0⟩ :=
  ⟨by norm_num,
    (VisualizeEarthQuake_degenerate_range (7 : ℚ) 5 ⟨0, 0, 0⟩ ⟨0, 0, 0, 0⟩).elim
      fun mk hmk => ⟨mk, hmk.1, hmk.2.1 (by norm_num)⟩⟩

end ClassifierTheorems

end Earthquake
